import Mathlib

/-!
Verification of the `linker` URL-shortener (linker.go) against its
natural-language specification.

Shallow embedding conventions:
* Go strings are modelled as `List Char` (`GoStr`); Go's `for _, v := range s`
  decodes runes, which is exactly iteration over `List Char`.  Where the source
  uses `len(s)` (a UTF-8 byte count) the model uses `utf8Len`; where the source
  slices at a byte index that provably falls inside an all-ASCII prefix, the
  model slices at the identical rune index (byte and rune indices coincide on
  ASCII prefixes).
* The database, the prepared statements and the HTTP server are external
  collaborators: the handler receives the lookup outcome as a function
  argument, and the administrative / lifecycle operations record the calls
  they make as an explicit trace.
-/

namespace Linker

abbrev GoStr := List Char

def gs (s : String) : GoStr := s.toList

/-- UTF-8 size of a rune, as Go's `len` counts it inside a string. -/
def charUtf8Size (c : Char) : Nat :=
  if c.toNat < 128 then 1 else if c.toNat < 2048 then 2
  else if c.toNat < 65536 then 3 else 4

/-- Go `len(s)` on a string: its UTF-8 byte length. -/
def utf8Len (s : GoStr) : Nat := (s.map charUtf8Size).sum

/-- The character class `[a-zA-Z0-9]` of the `regCheckURL` pattern
`(^\/[a-zA-Z0-9]+)` (linker.go line 80). -/
def isGoAlnum (c : Char) : Bool :=
  decide ((97 ≤ c.toNat ∧ c.toNat ≤ 122) ∨ (65 ≤ c.toNat ∧ c.toNat ≤ 90) ∨
    (48 ≤ c.toNat ∧ c.toNat ≤ 57))

/-- Code points of the punctuation rejected by `isNameValid`'s switch
(linker.go line 175), in source order:
`: ; < = > ? @ [ ] \ ^ _ `` { | } ~`. -/
def blacklistCodes : List Nat :=
  [58, 59, 60, 61, 62, 63, 64, 91, 93, 92, 94, 95, 96, 123, 124, 125, 126]

/-- `isNameValid` (linker.go lines 169-181): iterate the runes of `s`;
reject a rune below 48 or above 123, reject the blacklisted punctuation,
otherwise continue; the empty string is accepted. -/
def isNameValid : GoStr → Bool
  | [] => true
  | v :: rest =>
    if v.toNat < 48 ∨ 123 < v.toNat then false
    else if v.toNat ∈ blacklistCodes then false
    else isNameValid rest

/-- `html.EscapeString` on one rune (external `html` collaborator, used by
`serve` at linker.go line 370): the five escaped characters are
`&` (38), `'` (39), `<` (60), `>` (62), `"` (34); every other rune is kept. -/
def escapeChar (c : Char) : GoStr :=
  if c.toNat = 38 then gs "&amp;"
  else if c.toNat = 39 then gs "&#39;"
  else if c.toNat = 60 then gs "&lt;"
  else if c.toNat = 62 then gs "&gt;"
  else if c.toNat = 34 then gs "&#34;"
  else [c]

/-- `html.EscapeString` on a whole string. -/
def escapeString (s : GoStr) : GoStr := s.flatMap escapeChar

/-- `regCheckURL.FindStringIndex` for the anchored pattern `(^\/[a-zA-Z0-9]+)`
(linker.go line 80): because of the `^` anchor a match can only start at
index 0, with a `/` (47) followed by the maximal non-empty run of
alphanumerics; returns the matched span or `none`.  All matched characters
are ASCII, so the returned byte indices equal rune indices. -/
def regCheckURLFind (s : GoStr) : Option (Nat × Nat) :=
  match s with
  | c :: rest =>
    if c.toNat = 47 then
      let k := (rest.takeWhile isGoAlnum).length
      if 0 < k then some (0, 1 + k) else none
    else none
  | [] => none

/-- The candidate name `s[1:p[1]]` extracted by `serve` (linker.go line
377) from the escaped URI `s` and the match end `p1`; rune slicing is
legitimate because the matched prefix is all ASCII. -/
def matchedName (s : GoStr) (p1 : Nat) : GoStr := (s.drop 1).take (p1 - 1)

/-- Outcome of `l.get.QueryRowContext(l.ctx, x).Scan(&n)` (linker.go line
378), as seen by the handler: a row with a URL, `sql.ErrNoRows`, or any
other database error. -/
inductive ScanResult where
  | ok (url : GoStr)
  | noRows
  | err (msg : GoStr)
deriving DecidableEq, Repr

/-- An HTTP response produced by the handler: `http.Redirect` with a status
code, or a status code written via `WriteHeader` plus a body. -/
inductive Response where
  | redirect (code : Nat) (target : GoStr)
  | error (code : Nat) (body : GoStr)
deriving DecidableEq, Repr

/-- Everything observable from one call of the handler: the response, the
name passed to the prepared lookup statement (`none` when the statement was
never queried), and what was written to stderr. -/
structure ServeResult where
  resp : Response
  queried : Option GoStr
  logged : Option GoStr
deriving DecidableEq, Repr

/-- The request handler `serve` (linker.go lines 358-396).  `defaultUrl` is
`l.url`, `get` is the prepared lookup statement, `requestURI` is
`r.RequestURI`.  Length comparisons use UTF-8 byte counts exactly as Go's
`len`; the slices `s[1:p[1]]` and `s[p[1]:]` are taken at rune index `p[1]`,
legitimate because the matched prefix is all ASCII. -/
def serve (defaultUrl : GoStr) (get : GoStr → ScanResult) (requestURI : GoStr) :
    ServeResult :=
  if utf8Len requestURI ≤ 1 then ⟨.redirect 307 defaultUrl, none, none⟩
  else
    let s := escapeString requestURI
    match regCheckURLFind s with
    | none => ⟨.redirect 307 defaultUrl, none, none⟩
    | some (p0, p1) =>
      if p0 ≠ 0 ∨ p1 ≤ 1 then ⟨.redirect 307 defaultUrl, none, none⟩
      else
        let x := matchedName s p1
        match get x with
        | .noRows => ⟨.redirect 307 defaultUrl, some x, none⟩
        | .err m =>
          ⟨.error 500 (gs "Could not fetch requested URL \x22" ++ x ++ gs "\x22"),
           some x,
           some (gs "http function received an error: " ++ m ++ gs "!\n")⟩
        | .ok n =>
          if n.isEmpty then ⟨.redirect 307 defaultUrl, some x, none⟩
          else if p1 < utf8Len s then ⟨.redirect 307 (n ++ s.drop p1), some x, none⟩
          else ⟨.redirect 307 n, some x, none⟩

/-- The externally observable steps of `Close` (linker.go lines 144-168), in
the order the source performs them. -/
inductive CloseEvt where
  | stmtClose
  | dbClose
  | ctxCancel
  | serverShutdown
  | serverClose
deriving DecidableEq, Repr

/-- Which close step produced the error `Close` returns. -/
inductive CloseErr where
  | getStmt
  | db
  | shutdown
  | serverClose
deriving DecidableEq, Repr

/-- Lifecycle state of a `Linker` plus fault injection for the external
close calls.  `hasGet`, `hasDb`, `hasCtx` model the `!= nil` tests;
`stmtClosed`, `dbClosed`, `ctxDone`, `serverStopped` model the state of the
external resources; each `*Fail` flag makes the corresponding external
close call return an error the first time it acts on a still-open
resource. -/
structure LinkerLC where
  hasGet : Bool
  hasDb : Bool
  hasCtx : Bool
  stmtClosed : Bool
  dbClosed : Bool
  ctxDone : Bool
  serverStopped : Bool
  stmtCloseFail : Bool
  dbCloseFail : Bool
  shutdownFail : Bool
  serverCloseFail : Bool
deriving DecidableEq, Repr

/-- `sql.Stmt.Close`: closing an already-closed statement returns nil
(documented behavior of the database collaborator); otherwise the statement
becomes closed and the injected fault decides the error. -/
def stmtCloseOp (l : LinkerLC) : LinkerLC × Bool :=
  if l.stmtClosed then (l, false)
  else ({ l with stmtClosed := true }, l.stmtCloseFail)

/-- `sql.DB.Close`: same shape as `stmtCloseOp`. -/
def dbCloseOp (l : LinkerLC) : LinkerLC × Bool :=
  if l.dbClosed then (l, false)
  else ({ l with dbClosed := true }, l.dbCloseFail)

/-- `l.cancel()`: cancels the shared context. -/
def cancelOp (l : LinkerLC) : LinkerLC := { l with ctxDone := true }

/-- `http.Server.Shutdown`: once the server is already stopped (listeners
closed, no connections) a further call returns nil immediately. -/
def shutdownOp (l : LinkerLC) : LinkerLC × Bool :=
  if l.serverStopped then (l, false)
  else ({ l with serverStopped := true }, l.shutdownFail)

/-- `http.Server.Close`: same shape as `shutdownOp`. -/
def serverCloseOp (l : LinkerLC) : LinkerLC × Bool :=
  if l.serverStopped then (l, false)
  else ({ l with serverStopped := true }, l.serverCloseFail)

/-- Result of one `Close` call: the ordered trace of external close steps,
the final lifecycle state, and the error returned (`none` = nil). -/
structure CloseResult where
  trace : List CloseEvt
  state : LinkerLC
  err : Option CloseErr
deriving DecidableEq, Repr

/-- `Close` (linker.go lines 144-168), step by step:
close the get statement (early return on error), close the database (early
return on error), return nil when the context is nil; otherwise a `select`
skips cancellation when the context is already done, else cancels and shuts
the server down (early return on error); finally an unconditional second
`Shutdown` whose result is discarded, and `Server.Close` whose result is
returned. -/
def lcClose (l0 : LinkerLC) : CloseResult :=
  let step1 : LinkerLC × List CloseEvt × Bool :=
    if l0.hasGet then
      let (l, bad) := stmtCloseOp l0
      (l, [CloseEvt.stmtClose], bad)
    else (l0, [], false)
  match step1 with
  | (l1, t1, bad1) =>
    if bad1 then ⟨t1, l1, some .getStmt⟩
    else
      let step2 : LinkerLC × List CloseEvt × Bool :=
        if l1.hasDb then
          let (l, bad) := dbCloseOp l1
          (l, t1 ++ [CloseEvt.dbClose], bad)
        else (l1, t1, false)
      match step2 with
      | (l2, t2, bad2) =>
        if bad2 then ⟨t2, l2, some .db⟩
        else if !l2.hasCtx then ⟨t2, l2, none⟩
        else
          let step3 : LinkerLC × List CloseEvt × Bool :=
            if l2.ctxDone then (l2, t2, false)
            else
              let la := cancelOp l2
              let (lb, bad) := shutdownOp la
              (lb, t2 ++ [CloseEvt.ctxCancel, CloseEvt.serverShutdown], bad)
          match step3 with
          | (l3, t3, bad3) =>
            if bad3 then ⟨t3, l3, some .shutdown⟩
            else
              let (l4, _) := shutdownOp l3
              let t4 := t3 ++ [CloseEvt.serverShutdown]
              let (l5, bad5) := serverCloseOp l4
              ⟨t4 ++ [CloseEvt.serverClose], l5,
               if bad5 then some .serverClose else none⟩

/-- `a` occurs strictly before some occurrence of `b` in the trace. -/
def occursBeforeB (tr : List CloseEvt) (a b : CloseEvt) : Bool :=
  match tr with
  | [] => false
  | x :: rest => (x = a && rest.contains b) || occursBeforeB rest a b

/-- A `Linker` whose `Listen` has run and that is fully live: statement
prepared, database open, context live, server running, no injected
faults. -/
def lcFullOpen : LinkerLC :=
  ⟨true, true, true, false, false, false, false, false, false, false, false⟩

/-- `lcFullOpen` with a failing `Stmt.Close`. -/
def lcStmtFail : LinkerLC :=
  { lcFullOpen with stmtCloseFail := true }

/-- `unicode.IsSpace` for the rune set Go's `strings.TrimSpace` trims in the
Latin-1 range: space, `\t` `\n` `\v` `\f` `\r`, NEL (133) and NBSP (160).
Modelled from the spec's external collaborator (further Unicode space
classes are irrelevant to the claims). -/
def isGoSpace (c : Char) : Bool :=
  c.toNat = 32 || c.toNat = 9 || c.toNat = 10 || c.toNat = 11 ||
  c.toNat = 12 || c.toNat = 13 || c.toNat = 133 || c.toNat = 160

/-- `strings.TrimSpace`. -/
def goTrimSpace (s : GoStr) : GoStr :=
  ((s.dropWhile isGoSpace).reverse.dropWhile isGoSpace).reverse

def isAlphaAscii (c : Char) : Bool :=
  decide ((97 ≤ c.toNat ∧ c.toNat ≤ 122) ∨ (65 ≤ c.toNat ∧ c.toNat ≤ 90))

def isDigitAscii (c : Char) : Bool :=
  decide (48 ≤ c.toNat ∧ c.toNat ≤ 57)

/-- A scheme-tail character: letter, digit, `+` (43), `-` (45) or `.` (46). -/
def isSchemeTailChar (c : Char) : Bool :=
  isAlphaAscii c || isDigitAscii c || c.toNat = 43 || c.toNat = 45 || c.toNat = 46

/-- A well-formed scheme: a letter followed by scheme-tail characters. -/
def validScheme (sch : GoStr) : Bool :=
  match sch with
  | [] => false
  | c :: cs => isAlphaAscii c && cs.all isSchemeTailChar

/-- Modelled from the spec: `getScheme` of the external `net/url`
collaborator.  Scans left to right accumulating scheme characters in `acc`
(`acc.isEmpty` plays the role of `i == 0`): a letter always extends the
candidate scheme; a digit or `+`/`-`/`.` extends it unless it is the first
character (then the whole string has no scheme); a `:` (58) as first
character is a parse error (`missing protocol scheme`), otherwise it ends
the scheme; any other character means the whole string has no scheme.
Returns `none` on the parse error, otherwise `(scheme, remainder)` with an
empty scheme meaning "no scheme". -/
def getSchemeAux : GoStr → GoStr → Option (GoStr × GoStr)
  | acc, [] => some ([], acc)
  | acc, c :: rest =>
    if isAlphaAscii c then getSchemeAux (acc ++ [c]) rest
    else if isDigitAscii c || c.toNat = 43 || c.toNat = 45 || c.toNat = 46 then
      if acc.isEmpty then some ([], c :: rest)
      else getSchemeAux (acc ++ [c]) rest
    else if c.toNat = 58 then
      if acc.isEmpty then none else some (acc, rest)
    else some ([], acc ++ c :: rest)

def getScheme (s : GoStr) : Option (GoStr × GoStr) := getSchemeAux [] s

/-- Modelled from the spec: a parsed URL of the external `net/url`
collaborator reduced to what `Add`'s normalization touches.  `scheme` is
the scheme (empty = relative URL); `rest` is the raw remainder after the
scheme colon (or the whole string when there is no scheme); `slashForm` is
false exactly for the opaque form (a scheme followed by a remainder not
starting with `/`), where serialization re-emits the remainder verbatim. -/
structure GoURL where
  scheme : GoStr
  slashForm : Bool
  rest : GoStr
deriving DecidableEq, Repr

/-- ASCII control characters, which make `net/url` parsing fail. -/
def isCtl (c : Char) : Bool := c.toNat < 32 || c.toNat = 127

/-- Modelled from the spec: `url.Parse` of the external `net/url`
collaborator, reduced to scheme splitting; fails on control characters and
on a leading `:`; percent-escaping and case normalization are abstracted
(the remainder is kept raw). -/
def urlParse (s : GoStr) : Option GoURL :=
  if s.any isCtl then none
  else
    match getScheme s with
    | none => none
    | some (sch, rest) =>
      if sch.isEmpty then some ⟨[], true, rest⟩
      else if rest.head? = some (Char.ofNat 47) then some ⟨sch, true, rest⟩
      else some ⟨sch, false, rest⟩

/-- `url.URL.IsAbs`: a URL is absolute iff its scheme is non-empty. -/
def urlIsAbs (u : GoURL) : Bool := !u.scheme.isEmpty

/-- Modelled from the spec: `url.URL.String` of the external `net/url`
collaborator for the shapes reachable in `Add`: `scheme ++ ":"` when a
scheme is present; an opaque remainder verbatim; otherwise the `//`
authority marker is emitted before a non-empty remainder that does not
already start with `//` whenever a scheme is present. -/
def urlString (u : GoURL) : GoStr :=
  (if u.scheme.isEmpty then [] else u.scheme ++ [Char.ofNat 58]) ++
  (if !u.slashForm then u.rest
   else if u.rest.take 2 = [Char.ofNat 47, Char.ofNat 47] then u.rest
   else if !u.scheme.isEmpty && !u.rest.isEmpty then
     Char.ofNat 47 :: Char.ofNat 47 :: u.rest
   else u.rest)

/-- A serialized URL string is absolute iff it parses with a scheme. -/
def urlIsAbsString (s : GoStr) : Bool :=
  match urlParse s with
  | some u => urlIsAbs u
  | none => false

/-- The scheme-defaulting step of `Add` (linker.go lines 310-312): if the
parsed URL is not absolute, set its scheme to `https`. -/
def addScheme (p : GoURL) : GoURL :=
  if !urlIsAbs p then { p with scheme := gs "https" } else p

/-- A database call made by an administrative operation. -/
inductive DbOp where
  | prepare (query : GoStr)
  | exec (args : List GoStr)
  | closeStmt
deriving DecidableEq, Repr

/-- Errors returned by the administrative operations; `invalidName` is
`ErrInvalidName`, `notConfigured` is `ErrNotConfigured`, the rest are the
`newError` wrappers of the corresponding source lines. -/
inductive GoErr where
  | invalidName
  | notConfigured
  | invalidURL
  | prepareFailed (what : GoStr)
  | execFailed (what : GoStr)
deriving DecidableEq, Repr

def sqlGet : GoStr := gs "SELECT LinkURL FROM Links WHERE LinkName = ?"

def sqlAdd : GoStr := gs "INSERT INTO Links(LinkName, LinkURL) VALUES(?, ?)"

def sqlDelete : GoStr := gs "DELETE FROM Links WHERE LinkName = ?"

/-- `Add` (linker.go lines 299-325): nil-database check, name validation,
`url.Parse(strings.TrimSpace(u))`, scheme defaulting, then prepare / exec /
close of `sqlAdd` with the serialized URL as the second argument.
`hasDb` models `l.db != nil`; `prepFail` and `execFail` inject failures of
the two database calls.  Returns the trace of database calls and the
error.  (`RowsAffected` on the successful result is effect-free and not
traced.) -/
def linkerAdd (hasDb prepFail execFail : Bool) (n u : GoStr) :
    List DbOp × Option GoErr :=
  if !hasDb then ([], some .notConfigured)
  else if !isNameValid n then ([], some .invalidName)
  else
    match urlParse (goTrimSpace u) with
    | none => ([], some .invalidURL)
    | some p =>
      let p := addScheme p
      if prepFail then
        ([.prepare sqlAdd], some (.prepareFailed (gs "unable to prepare add statement")))
      else
        ([.prepare sqlAdd, .exec [n, urlString p], .closeStmt],
         if execFail then some (.execFailed (gs "unable to execute add statement"))
         else none)

/-- `Delete` (linker.go lines 329-348): nil-database check, name
validation, then prepare / exec / close of `sqlDelete`. -/
def linkerDelete (hasDb prepFail execFail : Bool) (n : GoStr) :
    List DbOp × Option GoErr :=
  if !hasDb then ([], some .notConfigured)
  else if !isNameValid n then ([], some .invalidName)
  else if prepFail then
    ([.prepare sqlDelete], some (.prepareFailed (gs "unable to prepare delete statement")))
  else
    ([.prepare sqlDelete, .exec [n], .closeStmt],
     if execFail then some (.execFailed (gs "unable to execute delete statement"))
     else none)

/-- A character `html.EscapeString` rewrites: `&` `'` `<` `>` `"`. -/
def isEscapable (c : Char) : Bool :=
  c.toNat = 38 || c.toNat = 39 || c.toNat = 60 || c.toNat = 62 || c.toNat = 34

/-- A concrete one-row resolver mapping the name `a` to `https://e`,
used by closed witnesses and counterexamples. -/
def resA (n : GoStr) : ScanResult :=
  if n = gs "a" then .ok (gs "https://e") else .noRows

theorem isNameValid_iff (s : GoStr) :
    isNameValid s = true ↔
      ∀ c ∈ s, 48 ≤ c.toNat ∧ c.toNat ≤ 123 ∧ c.toNat ∉ blacklistCodes := by
  induction s with
  | nil => simp [isNameValid]
  | cons v rest ih =>
    by_cases hband : v.toNat < 48 ∨ 123 < v.toNat
    · simp only [isNameValid, if_pos hband]
      constructor
      · intro h; exact absurd h (by simp)
      · intro h
        have := (h v (List.mem_cons_self v rest))
        omega
    · by_cases hbl : v.toNat ∈ blacklistCodes
      · simp only [isNameValid, if_neg hband, if_pos hbl]
        constructor
        · intro h; exact absurd h (by simp)
        · intro h
          exact absurd hbl (h v (List.mem_cons_self v rest)).2.2
      · simp only [isNameValid, if_neg hband, if_neg hbl]
        rw [ih]
        constructor
        · intro h c hc
          rcases List.mem_cons.mp hc with rfl | hc
          · exact ⟨by omega, by omega, hbl⟩
          · exact h c hc
        · intro h c hc
          exact h c (List.mem_cons_of_mem v hc)

theorem nameValid_char_alnum (v : Char) :
    (¬(v.toNat < 48 ∨ 123 < v.toNat) ∧ v.toNat ∉ blacklistCodes) ↔
      isGoAlnum v = true := by
  simp only [blacklistCodes, isGoAlnum, List.mem_cons, List.not_mem_nil,
    or_false, decide_eq_true_eq]
  omega

/-- C7: `isNameValid s` is true iff every character of `s` has code point in
48..123 and is not blacklisted punctuation; the empty string is valid, pure
letter/digit strings are accepted, and a string containing a blacklisted or
control character is rejected. -/
theorem c7_isNameValid_charset :
    (∀ s : GoStr, isNameValid s = true ↔
      ∀ c ∈ s, 48 ≤ c.toNat ∧ c.toNat ≤ 123 ∧ c.toNat ∉ blacklistCodes)
    ∧ isNameValid [] = true
    ∧ (∀ s : GoStr, (∀ c ∈ s, isGoAlnum c = true) → isNameValid s = true)
    ∧ (∀ s : GoStr, (∃ c ∈ s, c.toNat ∈ blacklistCodes ∨ c.toNat < 32) →
        isNameValid s = false) := by
  refine ⟨isNameValid_iff, rfl, ?_, ?_⟩
  · intro s h
    rw [isNameValid_iff]
    intro c hc
    have := (nameValid_char_alnum c).mpr (h c hc)
    exact ⟨by omega, by omega, this.2⟩
  · intro s ⟨c, hc, hbad⟩
    rcases hval : isNameValid s with _ | _
    · rfl
    · exfalso
      have := (isNameValid_iff s).mp hval c hc
      rcases hbad with hbl | hctl
      · exact this.2.2 hbl
      · omega

/-- Closed witness for C7 at concrete inputs. -/
theorem c7_witness :
    isNameValid (gs "ab9") = true ∧ isNameValid (gs "a_b") = false := by
  constructor
  · exact c7_isNameValid_charset.2.2.1 (gs "ab9") (by decide)
  · exact c7_isNameValid_charset.2.2.2 (gs "a_b") (by decide)

theorem isNameValid_eq_all (s : GoStr) : isNameValid s = s.all isGoAlnum := by
  induction s with
  | nil => rfl
  | cons v rest ih =>
    by_cases h1 : v.toNat < 48 ∨ 123 < v.toNat
    · have hv : isGoAlnum v = false := by
        cases hA : isGoAlnum v with
        | false => rfl
        | true => exact absurd h1 ((nameValid_char_alnum v).mpr hA).1
      simp [isNameValid, h1, hv]
    · by_cases h2 : v.toNat ∈ blacklistCodes
      · have hv : isGoAlnum v = false := by
          cases hA : isGoAlnum v with
          | false => rfl
          | true => exact absurd h2 ((nameValid_char_alnum v).mpr hA).2
        simp [isNameValid, h1, h2, hv]
      · have hv : isGoAlnum v = true := (nameValid_char_alnum v).mp ⟨h1, h2⟩
        simp [isNameValid, h1, h2, hv, ih]

theorem takeWhile_eq_self_of_all (p : Char → Bool) (s : GoStr)
    (h : ∀ c ∈ s, p c = true) : s.takeWhile p = s := by
  induction s with
  | nil => rfl
  | cons a l ih =>
    simp only [List.takeWhile, h a (List.mem_cons_self a l)]
    exact congrArg (a :: ·) (ih fun c hc => h c (List.mem_cons_of_mem a hc))

/-- C10: the validator accepts exactly the strings all of whose characters
match the Path Matcher's alphanumeric class `[a-zA-Z0-9]`: the band 48..123
minus the blacklist leaves no other character; consequently a non-empty
name is valid iff the pattern matches `"/" ++ name` over its full span. -/
theorem c10_valid_iff_alnum (s : GoStr) :
    isNameValid s = s.all isGoAlnum
    ∧ (s ≠ [] → (isNameValid s = true ↔
        regCheckURLFind (Char.ofNat 47 :: s) = some (0, 1 + s.length))) := by
  refine ⟨isNameValid_eq_all s, ?_⟩
  intro hne
  have h47 : (Char.ofNat 47).toNat = 47 := by decide
  constructor
  · intro hv
    have hall : ∀ c ∈ s, isGoAlnum c = true := by
      rw [isNameValid_eq_all] at hv
      exact fun c hc => List.all_eq_true.mp hv c hc
    have htw : s.takeWhile isGoAlnum = s := takeWhile_eq_self_of_all _ _ hall
    have hpos : 0 < s.length := List.length_pos.mpr hne
    simp [regCheckURLFind, h47, htw, hpos]
  · intro hm
    simp only [regCheckURLFind, h47, if_true] at hm
    split at hm
    · have hk : (s.takeWhile isGoAlnum).length = s.length := by
        simp only [Option.some.injEq, Prod.mk.injEq] at hm
        omega
      have heq : s.takeWhile isGoAlnum = s :=
        (List.takeWhile_prefix isGoAlnum).sublist.eq_of_length hk
      rw [isNameValid_eq_all]
      refine List.all_eq_true.mpr fun c hc => ?_
      have hmem : c ∈ s.takeWhile isGoAlnum := by rw [heq]; exact hc
      exact List.mem_takeWhile_imp hmem
    · exact absurd hm (by simp)

/-- Closed witness for C10 at a concrete non-empty name. -/
theorem c10_witness :
    isNameValid (gs "ab") = (gs "ab").all isGoAlnum
    ∧ (isNameValid (gs "ab") = true ↔
        regCheckURLFind (Char.ofNat 47 :: gs "ab") = some (0, 1 + (gs "ab").length)) :=
  ⟨(c10_valid_iff_alnum (gs "ab")).1, (c10_valid_iff_alnum (gs "ab")).2 (by decide)⟩

/-- C6: every request whose raw URI has byte length at most 1, and every
request whose HTML-escaped URI has no match of `(^\/[a-zA-Z0-9]+)`
anchored at index 0 with span greater than 1, is answered with a 307
redirect to the configured default URL and the prepared lookup statement
is never queried. -/
theorem c6_default_without_resolver (url uri : GoStr) (get : GoStr → ScanResult)
    (h : utf8Len uri ≤ 1 ∨ regCheckURLFind (escapeString uri) = none) :
    serve url get uri = ⟨.redirect 307 url, none, none⟩ := by
  by_cases hlen : utf8Len uri ≤ 1
  · simp [serve, hlen]
  · rcases h with h | h
    · exact absurd h hlen
    · simp [serve, hlen, h]

/-- Closed witness for C6: the root path and a non-matching path both go to
the default without touching the resolver. -/
theorem c6_witness :
    serve (gs "https://duckduckgo.com") (fun _ => ScanResult.noRows) (gs "/")
      = ⟨.redirect 307 (gs "https://duckduckgo.com"), none, none⟩
    ∧ serve (gs "https://duckduckgo.com") (fun _ => ScanResult.noRows) (gs "/..")
      = ⟨.redirect 307 (gs "https://duckduckgo.com"), none, none⟩ :=
  ⟨c6_default_without_resolver _ _ _ (Or.inl (by decide)),
   c6_default_without_resolver _ _ _ (Or.inr (by decide))⟩

/-- C3 counterexample: on a fully live `Linker`, `Close` emits the trace
statement-close, database-close, context-cancel, server-shutdown (twice),
server-close — so neither the cancellation nor the server stop precedes
the statement close, refuting the claimed order. -/
theorem c3_counterexample :
    (lcClose lcFullOpen).trace =
      [CloseEvt.stmtClose, CloseEvt.dbClose, CloseEvt.ctxCancel,
       CloseEvt.serverShutdown, CloseEvt.serverShutdown, CloseEvt.serverClose]
    ∧ occursBeforeB (lcClose lcFullOpen).trace CloseEvt.ctxCancel CloseEvt.stmtClose = false
    ∧ occursBeforeB (lcClose lcFullOpen).trace CloseEvt.serverShutdown CloseEvt.stmtClose = false := by
  decide

/-- C3 amended: during `Close` on a live `Linker` (statement and database
open, context not yet cancelled, no close failure) the strict order is:
statement close, then database close, then context cancellation, then the
server stop calls, and the call returns nil. -/
theorem c3_close_order (l : LinkerLC)
    (hg : l.hasGet = true) (hd : l.hasDb = true) (hc : l.hasCtx = true)
    (hsc : l.stmtClosed = false) (hdc : l.dbClosed = false)
    (hdone : l.ctxDone = false) (hss : l.serverStopped = false)
    (f1 : l.stmtCloseFail = false) (f2 : l.dbCloseFail = false)
    (f3 : l.shutdownFail = false) :
    (lcClose l).trace =
      [CloseEvt.stmtClose, CloseEvt.dbClose, CloseEvt.ctxCancel,
       CloseEvt.serverShutdown, CloseEvt.serverShutdown, CloseEvt.serverClose]
    ∧ (lcClose l).err = none := by
  obtain ⟨a1, a2, a3, a4, a5, a6, a7, a8, a9, a10, a11⟩ := l
  simp only at hg hd hc hsc hdc hdone hss f1 f2 f3
  subst hg hd hc hsc hdc hdone hss f1 f2 f3
  cases a11 <;> decide

/-- Closed witness for the amended C3 at the fully live state. -/
theorem c3_witness :
    (lcClose lcFullOpen).trace =
      [CloseEvt.stmtClose, CloseEvt.dbClose, CloseEvt.ctxCancel,
       CloseEvt.serverShutdown, CloseEvt.serverShutdown, CloseEvt.serverClose]
    ∧ (lcClose lcFullOpen).err = none :=
  c3_close_order lcFullOpen rfl rfl rfl rfl rfl rfl rfl rfl rfl rfl

/-- C4 counterexample: when closing the prepared statement fails, `Close`
returns that error at once — the database close and both server stop calls
are skipped, refuting best-effort-complete teardown. -/
theorem c4_counterexample :
    (lcClose lcStmtFail).err = some CloseErr.getStmt
    ∧ (lcClose lcStmtFail).trace = [CloseEvt.stmtClose]
    ∧ CloseEvt.dbClose ∉ (lcClose lcStmtFail).trace
    ∧ CloseEvt.serverShutdown ∉ (lcClose lcStmtFail).trace
    ∧ CloseEvt.serverClose ∉ (lcClose lcStmtFail).trace := by
  decide

/-- C4 amended: `Close` short-circuits on the first close error: whenever
the statement is open and its close fails, the call returns the
statement-close error and the trace stops at that single step, so the
database close and the server stop are not attempted. -/
theorem c4_close_shortcircuits (l : LinkerLC)
    (hg : l.hasGet = true) (hsc : l.stmtClosed = false)
    (hf : l.stmtCloseFail = true) :
    (lcClose l).err = some CloseErr.getStmt
    ∧ (lcClose l).trace = [CloseEvt.stmtClose] := by
  obtain ⟨a1, a2, a3, a4, a5, a6, a7, a8, a9, a10, a11⟩ := l
  simp only at hg hsc hf
  subst hg hsc hf
  cases a2 <;> cases a3 <;> cases a5 <;> cases a6 <;> cases a7 <;>
    cases a9 <;> cases a10 <;> cases a11 <;> decide

/-- Closed witness for the amended C4. -/
theorem c4_witness :
    (lcClose lcStmtFail).err = some CloseErr.getStmt
    ∧ (lcClose lcStmtFail).trace = [CloseEvt.stmtClose] :=
  c4_close_shortcircuits lcStmtFail rfl rfl rfl

/-- C5: a second `Close` after teardown has completed (statement, database
closed, context cancelled, server stopped) returns nil and leaves the
state unchanged: the already-closed external resources all report success
and the `select` skips the cancellation path. -/
theorem c5_close_idempotent (l : LinkerLC)
    (h1 : l.stmtClosed = true) (h2 : l.dbClosed = true)
    (h3 : l.ctxDone = true) (h4 : l.serverStopped = true) :
    (lcClose l).err = none ∧ (lcClose l).state = l := by
  obtain ⟨a1, a2, a3, a4, a5, a6, a7, a8, a9, a10, a11⟩ := l
  simp only at h1 h2 h3 h4
  subst h1 h2 h3 h4
  cases a1 <;> cases a2 <;> cases a3 <;> cases a8 <;> cases a9 <;>
    cases a10 <;> cases a11 <;> decide

/-- Closed witness for C5: the second `Close` is applied to the very state
a first `Close` of the fully live `Linker` produced. -/
theorem c5_witness :
    (lcClose (lcClose lcFullOpen).state).err = none
    ∧ (lcClose (lcClose lcFullOpen).state).state = (lcClose lcFullOpen).state :=
  c5_close_idempotent _ (by decide) (by decide) (by decide) (by decide)

/-- C8: for a configured `Linker` and any name the validator rejects,
`Add` and `Delete` return `ErrInvalidName` and make no database call at
all: nothing is prepared, executed, or mutated. -/
theorem c8_invalid_name_blocks_db (n u : GoStr) (pf ef pf2 ef2 : Bool)
    (h : isNameValid n = false) :
    linkerAdd true pf ef n u = ([], some GoErr.invalidName)
    ∧ linkerDelete true pf2 ef2 n = ([], some GoErr.invalidName) := by
  constructor
  · simp [linkerAdd, h]
  · simp [linkerDelete, h]

/-- Closed witness for C8 at a rejected name. -/
theorem c8_witness :
    linkerAdd true false false (gs "a:b") (gs "https://e")
      = ([], some GoErr.invalidName)
    ∧ linkerDelete true false false (gs "a:b") = ([], some GoErr.invalidName) :=
  c8_invalid_name_blocks_db (gs "a:b") (gs "https://e") false false false false
    (by decide)

theorem regCheckURLFind_some (s : GoStr) (a b : Nat)
    (h : regCheckURLFind s = some (a, b)) : a = 0 ∧ 2 ≤ b := by
  cases s with
  | nil => simp [regCheckURLFind] at h
  | cons c rest =>
    simp only [regCheckURLFind] at h
    split at h
    · split at h
      · simp only [Option.some.injEq, Prod.mk.injEq] at h
        omega
      · simp at h
    · simp at h

theorem length_le_utf8Len (s : GoStr) : s.length ≤ utf8Len s := by
  induction s with
  | nil => simp [utf8Len]
  | cons c rest ih =>
    simp only [utf8Len, List.map_cons, List.sum_cons, List.length_cons]
    have : 1 ≤ charUtf8Size c := by
      simp only [charUtf8Size]; split_ifs <;> omega
    simp only [utf8Len] at ih
    omega

theorem serve_noRows (url uri : GoStr) (get : GoStr → ScanResult) (p1 : Nat)
    (hlen : ¬ utf8Len uri ≤ 1)
    (hm : regCheckURLFind (escapeString uri) = some (0, p1))
    (hres : get (matchedName (escapeString uri) p1) = .noRows) :
    serve url get uri =
      ⟨.redirect 307 url, some (matchedName (escapeString uri) p1), none⟩ := by
  obtain ⟨-, hp1⟩ := regCheckURLFind_some _ _ _ hm
  simp only [serve, if_neg hlen, hm]
  rw [if_neg (by omega : ¬(0 ≠ 0 ∨ p1 ≤ 1))]
  rw [hres]

theorem serve_err (url uri m : GoStr) (get : GoStr → ScanResult) (p1 : Nat)
    (hlen : ¬ utf8Len uri ≤ 1)
    (hm : regCheckURLFind (escapeString uri) = some (0, p1))
    (hres : get (matchedName (escapeString uri) p1) = .err m) :
    serve url get uri =
      ⟨.error 500 (gs "Could not fetch requested URL \x22"
          ++ matchedName (escapeString uri) p1 ++ gs "\x22"),
       some (matchedName (escapeString uri) p1),
       some (gs "http function received an error: " ++ m ++ gs "!\n")⟩ := by
  obtain ⟨-, hp1⟩ := regCheckURLFind_some _ _ _ hm
  simp only [serve, if_neg hlen, hm]
  rw [if_neg (by omega : ¬(0 ≠ 0 ∨ p1 ≤ 1))]
  rw [hres]

theorem serve_found (url uri U : GoStr) (get : GoStr → ScanResult) (p1 : Nat)
    (hlen : ¬ utf8Len uri ≤ 1)
    (hm : regCheckURLFind (escapeString uri) = some (0, p1))
    (hres : get (matchedName (escapeString uri) p1) = .ok U) (hU : U ≠ []) :
    serve url get uri =
      ⟨.redirect 307 (U ++ (escapeString uri).drop p1),
       some (matchedName (escapeString uri) p1), none⟩ := by
  obtain ⟨-, hp1⟩ := regCheckURLFind_some _ _ _ hm
  simp only [serve, if_neg hlen, hm]
  rw [if_neg (by omega : ¬(0 ≠ 0 ∨ p1 ≤ 1))]
  rw [hres]
  dsimp only
  rw [if_neg (by simp [hU] : ¬ (U.isEmpty = true))]
  by_cases hlt : p1 < utf8Len (escapeString uri)
  · rw [if_pos hlt]
  · rw [if_neg hlt]
    have hdrop : (escapeString uri).drop p1 = [] := by
      refine List.drop_eq_nil_iff.mpr ?_
      have := length_le_utf8Len (escapeString uri)
      omega
    rw [hdrop, List.append_nil]

/-- C2: once the handler reaches the lookup (URI longer than one byte, a
match of the pattern on the escaped URI), the three resolver outcomes are
kept apart: row-not-found falls back to a 307 redirect to the default
URL; any other database error yields a 500 whose body names the failed
lookup key, the error is written to stderr and no redirect happens; a
found row with a non-empty URL yields a 307 redirect to it (with the
escaped trailing content appended). -/
theorem c2_three_outcomes (url uri : GoStr) (get : GoStr → ScanResult) (p1 : Nat)
    (hlen : ¬ utf8Len uri ≤ 1)
    (hm : regCheckURLFind (escapeString uri) = some (0, p1)) :
    (get (matchedName (escapeString uri) p1) = ScanResult.noRows →
      serve url get uri =
        ⟨.redirect 307 url, some (matchedName (escapeString uri) p1), none⟩)
    ∧ (∀ m, get (matchedName (escapeString uri) p1) = ScanResult.err m →
      serve url get uri =
        ⟨.error 500 (gs "Could not fetch requested URL \x22"
            ++ matchedName (escapeString uri) p1 ++ gs "\x22"),
         some (matchedName (escapeString uri) p1),
         some (gs "http function received an error: " ++ m ++ gs "!\n")⟩)
    ∧ (∀ U, get (matchedName (escapeString uri) p1) = ScanResult.ok U → U ≠ [] →
      serve url get uri =
        ⟨.redirect 307 (U ++ (escapeString uri).drop p1),
         some (matchedName (escapeString uri) p1), none⟩) :=
  ⟨fun h => serve_noRows url uri get p1 hlen hm h,
   fun m h => serve_err url uri m get p1 hlen hm h,
   fun U h hU => serve_found url uri U get p1 hlen hm h hU⟩

/-- Closed witness for C2: a missing name redirects to the default. -/
theorem c2_witness :
    serve (gs "https://d") resA (gs "/b")
      = ⟨Response.redirect 307 (gs "https://d"), some (gs "b"), none⟩ :=
  (c2_three_outcomes (gs "https://d") (gs "/b") resA 2 (by decide) (by decide)).1
    (by decide)

theorem escapeChar_alnum (c : Char) (h : isGoAlnum c = true) : escapeChar c = [c] := by
  simp only [isGoAlnum, decide_eq_true_eq] at h
  simp only [escapeChar]
  rw [if_neg (by omega), if_neg (by omega), if_neg (by omega),
    if_neg (by omega), if_neg (by omega)]

theorem escapeString_alnum (l : GoStr) (h : ∀ c ∈ l, isGoAlnum c = true) :
    escapeString l = l := by
  induction l with
  | nil => rfl
  | cons c rest ih =>
    simp only [escapeString, List.flatMap_cons]
    rw [escapeChar_alnum c (h c (List.mem_cons_self c rest))]
    rw [show rest.flatMap escapeChar = escapeString rest from rfl,
      ih fun d hd => h d (List.mem_cons_of_mem c hd)]
    rfl

theorem escapeChar_ne_nil (c : Char) : escapeChar c ≠ [] := by
  simp only [escapeChar]
  split_ifs <;> simp [gs]

theorem escapeChar_head_not_alnum (c : Char) (h : isGoAlnum c = false) :
    ∀ d, (escapeChar c).head? = some d → isGoAlnum d = false := by
  intro d hd
  simp only [escapeChar] at hd
  split_ifs at hd
  · rw [show (gs "&amp;").head? = some (Char.ofNat 38) from by decide] at hd
    injection hd with h38; subst h38; decide
  · rw [show (gs "&#39;").head? = some (Char.ofNat 38) from by decide] at hd
    injection hd with h38; subst h38; decide
  · rw [show (gs "&lt;").head? = some (Char.ofNat 38) from by decide] at hd
    injection hd with h38; subst h38; decide
  · rw [show (gs "&gt;").head? = some (Char.ofNat 38) from by decide] at hd
    injection hd with h38; subst h38; decide
  · rw [show (gs "&#34;").head? = some (Char.ofNat 38) from by decide] at hd
    injection hd with h38; subst h38; decide
  · simp only [List.head?_cons, Option.some.injEq] at hd
    subst hd; exact h

theorem escapeString_head_not_alnum (t : GoStr)
    (h : ∀ c, t.head? = some c → isGoAlnum c = false) :
    ∀ d, (escapeString t).head? = some d → isGoAlnum d = false := by
  intro d hd
  cases t with
  | nil => exact Option.noConfusion hd
  | cons c rest =>
    simp only [escapeString, List.flatMap_cons] at hd
    cases he : escapeChar c with
    | nil => exact absurd he (escapeChar_ne_nil c)
    | cons e es =>
      rw [he] at hd
      simp only [List.cons_append, List.head?_cons, Option.some.injEq] at hd
      subst hd
      exact escapeChar_head_not_alnum c (h c rfl) e (by rw [he]; rfl)

theorem takeWhile_append_left (l t : GoStr) (p : Char → Bool)
    (h : ∀ c ∈ l, p c = true) (h2 : ∀ c, t.head? = some c → p c = false) :
    (l ++ t).takeWhile p = l := by
  induction l with
  | nil =>
    cases t with
    | nil => rfl
    | cons c rest =>
      simp only [List.nil_append, List.takeWhile]
      rw [h2 c rfl]
  | cons a l ih =>
    simp only [List.cons_append, List.takeWhile, h a (List.mem_cons_self a l)]
    exact congrArg (a :: ·) (ih fun c hc => h c (List.mem_cons_of_mem a hc))

theorem escapeChar_plain (c : Char) (h : isEscapable c = false) :
    escapeChar c = [c] := by
  simp only [isEscapable, Bool.or_eq_false_iff, decide_eq_false_iff_not] at h
  obtain ⟨⟨⟨⟨h1, h2⟩, h3⟩, h4⟩, h5⟩ := h
  simp only [escapeChar]
  rw [if_neg h1, if_neg h2, if_neg h3, if_neg h4, if_neg h5]

theorem escapeString_plain (l : GoStr) (h : ∀ c ∈ l, isEscapable c = false) :
    escapeString l = l := by
  induction l with
  | nil => rfl
  | cons c rest ih =>
    simp only [escapeString, List.flatMap_cons]
    rw [escapeChar_plain c (h c (List.mem_cons_self c rest))]
    rw [show rest.flatMap escapeChar = escapeString rest from rfl,
      ih fun d hd => h d (List.mem_cons_of_mem c hd)]
    rfl

/-- C1 counterexample: for the request URI `/a?x=1&y=2` — which is
`"/" ++ "a" ++ "?x=1&y=2"`, whose matched span is `/a`, and whose name `a`
the resolver maps to `https://e` — the handler redirects to
`https://e?x=1&amp;y=2`: the appended suffix is the HTML-escaped trailing
content, not the original `?x=1&y=2` verbatim. -/
theorem c1_counterexample :
    gs "/a?x=1&y=2" = Char.ofNat 47 :: (gs "a" ++ gs "?x=1&y=2")
    ∧ resA (gs "a") = ScanResult.ok (gs "https://e")
    ∧ regCheckURLFind (escapeString (gs "/a?x=1&y=2")) = some (0, 2)
    ∧ (serve (gs "https://d") resA (gs "/a?x=1&y=2")).resp
        = Response.redirect 307 (gs "https://e?x=1&amp;y=2")
    ∧ Response.redirect 307 (gs "https://e?x=1&amp;y=2")
        ≠ Response.redirect 307 (gs "https://e" ++ gs "?x=1&y=2") := by
  decide

/-- C1 amended: for every request URI `"/" ++ name ++ suffix` whose span
`"/" ++ name` is matched (name non-empty and alphanumeric, suffix not
starting alphanumerically) and whose name the Resolver maps to a non-empty
URL `U`, the handler responds 307 with target `U` + the HTML-escaped form
of `suffix` (in particular exactly `U` when `suffix` is empty); the suffix
is appended verbatim exactly when it contains none of the five characters
`html.EscapeString` rewrites. -/
theorem c1_redirect_escaped_suffix (url U name suffix : GoStr)
    (get : GoStr → ScanResult)
    (hname : name ≠ []) (halnum : ∀ c ∈ name, isGoAlnum c = true)
    (hsuf : ∀ c, suffix.head? = some c → isGoAlnum c = false)
    (hres : get name = ScanResult.ok U) (hU : U ≠ []) :
    serve url get (Char.ofNat 47 :: name ++ suffix)
      = ⟨.redirect 307 (U ++ escapeString suffix), some name, none⟩
    ∧ ((∀ c ∈ suffix, isEscapable c = false) → escapeString suffix = suffix) := by
  refine ⟨?_, escapeString_plain suffix⟩
  have hesc : escapeString (Char.ofNat 47 :: name ++ suffix)
      = Char.ofNat 47 :: (name ++ escapeString suffix) := by
    simp only [escapeString, List.cons_append, List.flatMap_cons]
    rw [show escapeChar (Char.ofNat 47) = [Char.ofNat 47] by decide]
    rw [show (name ++ suffix).flatMap escapeChar = escapeString (name ++ suffix) from rfl]
    rw [show escapeString (name ++ suffix)
        = escapeString name ++ escapeString suffix
      from List.flatMap_append name suffix escapeChar]
    rw [escapeString_alnum name halnum]
    rfl
  have htw : (name ++ escapeString suffix).takeWhile isGoAlnum = name :=
    takeWhile_append_left name (escapeString suffix) isGoAlnum halnum
      (escapeString_head_not_alnum suffix hsuf)
  have hm : regCheckURLFind (escapeString (Char.ofNat 47 :: name ++ suffix))
      = some (0, 1 + name.length) := by
    rw [hesc]
    simp only [regCheckURLFind]
    rw [if_pos (by decide : (Char.ofNat 47).toNat = 47)]
    simp only [htw]
    rw [if_pos (List.length_pos.mpr hname)]
  have hlen : ¬ utf8Len (Char.ofNat 47 :: name ++ suffix) ≤ 1 := by
    obtain ⟨c, name', rfl⟩ : ∃ c name', name = c :: name' := by
      cases name with
      | nil => exact absurd rfl hname
      | cons c name' => exact ⟨c, name', rfl⟩
    simp only [utf8Len, List.cons_append, List.map_cons, List.sum_cons]
    have s1 : 1 ≤ charUtf8Size (Char.ofNat 47) := by decide
    have s2 : 1 ≤ charUtf8Size c := by
      simp only [charUtf8Size]; split_ifs <;> omega
    omega
  have hmn : matchedName (escapeString (Char.ofNat 47 :: name ++ suffix))
      (1 + name.length) = name := by
    rw [hesc]
    simp only [matchedName, List.drop_succ_cons, List.drop_zero]
    rw [show 1 + name.length - 1 = name.length by omega]
    exact List.take_left name (escapeString suffix)
  have hs := serve_found url (Char.ofNat 47 :: name ++ suffix) U get
    (1 + name.length) hlen hm (by rw [hmn]; exact hres) hU
  rw [hs, hmn, hesc]
  rw [show (Char.ofNat 47 :: (name ++ escapeString suffix)).drop (1 + name.length)
      = escapeString suffix by
    rw [Nat.add_comm 1 name.length]
    rw [List.drop_succ_cons]
    exact List.drop_left name (escapeString suffix)]

/-- Closed witness for the amended C1 at name `a`, suffix `?q`. -/
theorem c1_witness :
    serve (gs "https://d") resA (Char.ofNat 47 :: (gs "a" ++ gs "?q"))
      = ⟨Response.redirect 307 (gs "https://e" ++ escapeString (gs "?q")),
         some (gs "a"), none⟩
    ∧ escapeString (gs "?q") = gs "?q" := by
  have h := c1_redirect_escaped_suffix (gs "https://d") (gs "https://e")
    (gs "a") (gs "?q") resA (by decide) (by decide)
    (by
      intro c hc
      rw [show (gs "?q").head? = some (Char.ofNat 63) from by decide] at hc
      injection hc with h63
      subst h63
      decide)
    (by decide) (by decide)
  exact ⟨h.1, h.2 (by decide)⟩

theorem schemeTail_not_ctl (c : Char) (h : isSchemeTailChar c = true) :
    isCtl c = false := by
  simp only [isSchemeTailChar, isAlphaAscii, isDigitAscii, Bool.or_eq_true,
    decide_eq_true_eq] at h
  simp only [isCtl, Bool.or_eq_false_iff, decide_eq_false_iff_not]
  omega

theorem alpha_schemeTail (c : Char) (h : isAlphaAscii c = true) :
    isSchemeTailChar c = true := by
  simp [isSchemeTailChar, h]

theorem validScheme_no_ctl (sch : GoStr) (h : validScheme sch = true) :
    sch.any isCtl = false := by
  cases sch with
  | nil => rfl
  | cons a as =>
    simp only [validScheme, Bool.and_eq_true] at h
    simp only [List.any_cons, Bool.or_eq_false_iff]
    constructor
    · exact schemeTail_not_ctl a (alpha_schemeTail a h.1)
    · refine List.any_eq_false.mpr fun x hx => ?_
      simp only [Bool.not_eq_true]
      exact schemeTail_not_ctl x (List.all_eq_true.mp h.2 x hx)

theorem validScheme_append (acc : GoStr) (d : Char) (h : validScheme acc = true)
    (hd : isSchemeTailChar d = true) : validScheme (acc ++ [d]) = true := by
  cases acc with
  | nil => exact absurd h (by simp [validScheme])
  | cons a as =>
    simp only [validScheme, Bool.and_eq_true, List.cons_append] at h ⊢
    refine ⟨h.1, ?_⟩
    rw [List.all_append]
    simp [h.2, hd]

theorem validScheme_cons_mid (acc : GoStr) (d : Char) (t' : GoStr)
    (h : validScheme (acc ++ d :: t') = true) :
    (acc = [] ∧ isAlphaAscii d = true) ∨ (acc ≠ [] ∧ isSchemeTailChar d = true) := by
  cases acc with
  | nil =>
    left
    simp only [List.nil_append, validScheme, Bool.and_eq_true] at h
    exact ⟨rfl, h.1⟩
  | cons a as =>
    right
    simp only [List.cons_append, validScheme, Bool.and_eq_true] at h
    refine ⟨by simp, ?_⟩
    have h2 := h.2
    rw [List.all_append] at h2
    simp only [Bool.and_eq_true, List.all_cons] at h2
    exact h2.2.1

theorem getSchemeAux_valid : ∀ (s acc sch r : GoStr),
    (acc = [] ∨ validScheme acc = true) →
    getSchemeAux acc s = some (sch, r) →
    sch = [] ∨ validScheme sch = true := by
  intro s
  induction s with
  | nil =>
    intro acc sch r _ h
    simp only [getSchemeAux, Option.some.injEq, Prod.mk.injEq] at h
    exact Or.inl h.1.symm
  | cons c rest ih =>
    intro acc sch r hacc h
    simp only [getSchemeAux] at h
    by_cases h1 : isAlphaAscii c = true
    · rw [if_pos h1] at h
      refine ih (acc ++ [c]) sch r ?_ h
      right
      rcases hacc with rfl | hv
      · simpa [validScheme] using h1
      · exact validScheme_append acc c hv (alpha_schemeTail c h1)
    · rw [if_neg h1] at h
      by_cases h2 : (isDigitAscii c || decide (c.toNat = 43) ||
          decide (c.toNat = 45) || decide (c.toNat = 46)) = true
      · rw [if_pos h2] at h
        by_cases h3 : acc.isEmpty = true
        · rw [if_pos h3] at h
          simp only [Option.some.injEq, Prod.mk.injEq] at h
          exact Or.inl h.1.symm
        · rw [if_neg h3] at h
          refine ih (acc ++ [c]) sch r ?_ h
          right
          rcases hacc with rfl | hv
          · exact absurd (by rfl) h3
          · refine validScheme_append acc c hv ?_
            simp only [isSchemeTailChar, Bool.or_eq_true] at h2 ⊢
            tauto
      · rw [if_neg h2] at h
        by_cases h4 : c.toNat = 58
        · rw [if_pos h4] at h
          by_cases h5 : acc.isEmpty = true
          · rw [if_pos h5] at h; exact absurd h (by simp)
          · rw [if_neg h5] at h
            simp only [Option.some.injEq, Prod.mk.injEq] at h
            rcases hacc with rfl | hv
            · exact absurd (by rfl) h5
            · exact Or.inr (h.1 ▸ hv)
        · rw [if_neg h4] at h
          simp only [Option.some.injEq, Prod.mk.injEq] at h
          exact Or.inl h.1.symm

theorem getSchemeAux_run : ∀ (t acc X : GoStr),
    validScheme (acc ++ t) = true →
    getSchemeAux acc (t ++ Char.ofNat 58 :: X) = some (acc ++ t, X) := by
  intro t
  induction t with
  | nil =>
    intro acc X h
    rw [List.append_nil] at h
    have hne : acc ≠ [] := by
      intro he; rw [he] at h; exact absurd h (by simp [validScheme])
    simp only [List.nil_append, List.append_nil, getSchemeAux]
    rw [if_neg (by decide : ¬ isAlphaAscii (Char.ofNat 58) = true)]
    rw [if_neg (by decide : ¬ (isDigitAscii (Char.ofNat 58) ||
      decide ((Char.ofNat 58).toNat = 43) || decide ((Char.ofNat 58).toNat = 45) ||
      decide ((Char.ofNat 58).toNat = 46)) = true)]
    rw [if_pos (by decide : ((Char.ofNat 58).toNat = 58))]
    rw [if_neg (by simp [hne] : ¬ acc.isEmpty = true)]
  | cons d t' ih =>
    intro acc X h
    have hclass := validScheme_cons_mid acc d t' h
    have hrec : getSchemeAux (acc ++ [d]) (t' ++ Char.ofNat 58 :: X)
        = some (acc ++ d :: t', X) := by
      have hv : validScheme ((acc ++ [d]) ++ t') = true := by
        rw [List.append_assoc, List.singleton_append]; exact h
      have := ih (acc ++ [d]) X hv
      rw [this, List.append_assoc, List.singleton_append]
    simp only [List.cons_append, getSchemeAux]
    by_cases ha : isAlphaAscii d = true
    · rw [if_pos ha]; exact hrec
    · rw [if_neg ha]
      rcases hclass with ⟨rfl, hd⟩ | ⟨hne, hd⟩
      · exact absurd hd ha
      · have hd2 : (isDigitAscii d || decide (d.toNat = 43) ||
            decide (d.toNat = 45) || decide (d.toNat = 46)) = true := by
          simp only [isSchemeTailChar, Bool.or_eq_true] at hd ⊢
          rcases hd with ((((h5 | h5) | h5) | h5) | h5)
          · exact absurd h5 ha
          · tauto
          · tauto
          · tauto
          · tauto
        rw [if_pos hd2]
        rw [if_neg (by simp [hne] : ¬ acc.isEmpty = true)]
        exact hrec

theorem getScheme_run (sch X : GoStr) (h : validScheme sch = true) :
    getScheme (sch ++ Char.ofNat 58 :: X) = some (sch, X) := by
  have := getSchemeAux_run sch [] X (by simpa using h)
  simpa [getScheme] using this

theorem getSchemeAux_no_ctl : ∀ (s acc sch r : GoStr),
    acc.any isCtl = false → s.any isCtl = false →
    getSchemeAux acc s = some (sch, r) →
    sch.any isCtl = false ∧ r.any isCtl = false := by
  intro s
  induction s with
  | nil =>
    intro acc sch r hacc _ h
    simp only [getSchemeAux, Option.some.injEq, Prod.mk.injEq] at h
    rw [← h.1, ← h.2]
    exact ⟨rfl, hacc⟩
  | cons c rest ih =>
    intro acc sch r hacc hs h
    simp only [List.any_cons, Bool.or_eq_false_iff] at hs
    have haccc : (acc ++ [c]).any isCtl = false := by
      rw [List.any_append]
      simp [hacc, hs.1]
    simp only [getSchemeAux] at h
    by_cases h1 : isAlphaAscii c = true
    · rw [if_pos h1] at h
      exact ih (acc ++ [c]) sch r haccc hs.2 h
    · rw [if_neg h1] at h
      by_cases h2 : (isDigitAscii c || decide (c.toNat = 43) ||
          decide (c.toNat = 45) || decide (c.toNat = 46)) = true
      · rw [if_pos h2] at h
        by_cases h3 : acc.isEmpty = true
        · rw [if_pos h3] at h
          simp only [Option.some.injEq, Prod.mk.injEq] at h
          rw [← h.1, ← h.2]
          exact ⟨rfl, by simp [List.any_cons, hs.1, hs.2]⟩
        · rw [if_neg h3] at h
          exact ih (acc ++ [c]) sch r haccc hs.2 h
      · rw [if_neg h2] at h
        by_cases h4 : c.toNat = 58
        · rw [if_pos h4] at h
          by_cases h5 : acc.isEmpty = true
          · rw [if_pos h5] at h; exact absurd h (by simp)
          · rw [if_neg h5] at h
            simp only [Option.some.injEq, Prod.mk.injEq] at h
            rw [← h.1, ← h.2]
            exact ⟨hacc, hs.2⟩
        · rw [if_neg h4] at h
          simp only [Option.some.injEq, Prod.mk.injEq] at h
          rw [← h.1, ← h.2]
          refine ⟨rfl, ?_⟩
          rw [List.any_append]
          simp [hacc, List.any_cons, hs.1, hs.2]

theorem urlString_abs (q : GoURL) (hsch : validScheme q.scheme = true)
    (hctl : q.rest.any isCtl = false) : urlIsAbsString (urlString q) = true := by
  have hne : q.scheme ≠ [] := by
    intro he; rw [he] at hsch; exact absurd hsch (by simp [validScheme])
  have hemp : q.scheme.isEmpty = false := by simpa using hne
  have key : ∀ T : GoStr, T.any isCtl = false →
      urlIsAbsString (q.scheme ++ Char.ofNat 58 :: T) = true := by
    intro T hT
    have hanyf : (q.scheme ++ Char.ofNat 58 :: T).any isCtl = false := by
      rw [List.any_append]
      simp [validScheme_no_ctl q.scheme hsch, List.any_cons, hT,
        (by decide : isCtl (Char.ofNat 58) = false)]
    simp only [urlIsAbsString, urlParse]
    rw [if_neg (by simp [hanyf])]
    rw [getScheme_run q.scheme T hsch]
    dsimp only
    rw [if_neg (by simp [hemp] : ¬ q.scheme.isEmpty = true)]
    by_cases hh : T.head? = some (Char.ofNat 47)
    · rw [if_pos hh]
      simp [urlIsAbs, hemp]
    · rw [if_neg hh]
      simp [urlIsAbs, hemp]
  have hshape : ∃ T, urlString q = q.scheme ++ Char.ofNat 58 :: T
      ∧ T.any isCtl = false := by
    simp only [urlString, hemp, Bool.false_eq_true, if_false]
    split_ifs with h1 h2 h3
    · exact ⟨q.rest, by simp, hctl⟩
    · exact ⟨q.rest, by simp, hctl⟩
    · refine ⟨Char.ofNat 47 :: Char.ofNat 47 :: q.rest, by simp, ?_⟩
      simp [List.any_cons, hctl, (by decide : isCtl (Char.ofNat 47) = false)]
    · exact ⟨q.rest, by simp, hctl⟩
  obtain ⟨T, hTe, hTc⟩ := hshape
  rw [hTe]
  exact key T hTc

/-- C9: for every valid name, `Add` normalizes the URL before storage:
the input is trimmed, parsed (an unparseable URL aborts with an error and
no database call), and when the parse succeeds the value written as the
second statement argument is the serialization of the parsed URL with the
scheme defaulted to `https` when it was not absolute — and that stored
string is always an absolute URL. -/
theorem c9_add_stores_absolute (n u : GoStr) (hval : isNameValid n = true) :
    (urlParse (goTrimSpace u) = none →
      linkerAdd true false false n u = ([], some GoErr.invalidURL))
    ∧ (∀ p, urlParse (goTrimSpace u) = some p →
      linkerAdd true false false n u =
        ([DbOp.prepare sqlAdd, DbOp.exec [n, urlString (addScheme p)], DbOp.closeStmt], none)
      ∧ urlIsAbsString (urlString (addScheme p)) = true) := by
  constructor
  · intro h
    simp [linkerAdd, hval, h]
  · intro p hp
    refine ⟨by simp [linkerAdd, hval, hp], ?_⟩
    simp only [urlParse] at hp
    by_cases hc : (goTrimSpace u).any isCtl = true
    · rw [if_pos hc] at hp
      exact absurd hp (by simp)
    · rw [if_neg hc] at hp
      have hcf : (goTrimSpace u).any isCtl = false := by
        simpa using hc
      cases hg : getScheme (goTrimSpace u) with
      | none => rw [hg] at hp; exact absurd hp (by simp)
      | some pr =>
        obtain ⟨sch, rest⟩ := pr
        rw [hg] at hp
        dsimp only at hp
        have hnoctl := getSchemeAux_no_ctl (goTrimSpace u) [] sch rest rfl hcf hg
        by_cases hse : sch.isEmpty = true
        · rw [if_pos hse] at hp
          have hpe : p = ⟨[], true, rest⟩ := by
            injection hp with h1
            exact h1.symm
          subst hpe
          have hadd : addScheme ⟨[], true, rest⟩
              = ⟨gs "https", true, rest⟩ := by
            simp [addScheme, urlIsAbs]
          rw [hadd]
          exact urlString_abs ⟨gs "https", true, rest⟩
            (show validScheme (gs "https") = true by decide) hnoctl.2
        · rw [if_neg hse] at hp
          have hvs : validScheme sch = true := by
            rcases getSchemeAux_valid (goTrimSpace u) [] sch rest (Or.inl rfl) hg with h0 | h1
            · rw [h0] at hse; exact absurd rfl hse
            · exact h1
          have habs : ∀ b : Bool, addScheme ⟨sch, b, rest⟩ = ⟨sch, b, rest⟩ := by
            intro b
            simp only [addScheme, urlIsAbs]
            rw [if_neg (by simp [hse])]
          by_cases hh : rest.head? = some (Char.ofNat 47)
          · rw [if_pos hh] at hp
            have hpe : p = ⟨sch, true, rest⟩ := by
              injection hp with h1; exact h1.symm
            subst hpe
            rw [habs true]
            exact urlString_abs ⟨sch, true, rest⟩ hvs hnoctl.2
          · rw [if_neg hh] at hp
            have hpe : p = ⟨sch, false, rest⟩ := by
              injection hp with h1; exact h1.symm
            subst hpe
            rw [habs false]
            exact urlString_abs ⟨sch, false, rest⟩ hvs hnoctl.2

/-- Closed witness for C9: `example.com/x` is stored as
`https://example.com/x`. -/
theorem c9_witness :
    linkerAdd true false false (gs "doc") (gs "example.com/x")
      = ([DbOp.prepare sqlAdd,
          DbOp.exec [gs "doc", urlString (addScheme ⟨[], true, gs "example.com/x"⟩)],
          DbOp.closeStmt], none)
    ∧ urlIsAbsString (urlString (addScheme ⟨[], true, gs "example.com/x"⟩)) = true
    ∧ urlString (addScheme ⟨[], true, gs "example.com/x"⟩)
        = gs "https://example.com/x" := by
  have h := (c9_add_stores_absolute (gs "doc") (gs "example.com/x") (by decide)).2
    ⟨[], true, gs "example.com/x"⟩ (by decide)
  exact ⟨h.1, h.2, by decide⟩


end Linker
